import Mathlib

/-!
# Verification of the Foxglove Data Platform client SDK

A shallow embedding of `foxglove_data_platform/client.py`.  HTTP responses,
streamed bodies and mcap records are explicit inputs; callback invocations and
decoder constructions are returned as explicit event lists so that the
side-effecting Python code becomes pure state-passing functions.  Python
object identity of decoder instances is modelled by tagging each constructed
decoder with the owning session id and a per-session construction counter.
-/

set_option autoImplicit false

namespace Foxglove

/-- A parsed JSON object body, restricted to the string-valued fields the
client inspects (`error` in `json_or_raise`, `link` in the transfer calls). -/
abbrev JsonObj := List (String × String)

/-- An HTTP response as seen by `json_or_raise`: status code, reason phrase,
and the body, `none` when `response.json()` raises `ValueError`. -/
structure Response where
  status : Nat
  reason : String
  body : Option JsonObj
  deriving DecidableEq, Repr

/-- A raised `requests.exceptions.HTTPError`: the descriptive message and the
status code of the response object attached to the error. -/
structure HTTPError where
  message : String
  status : Nat
  deriving DecidableEq, Repr

/-- Model of `json_or_raise` from client.py.  Parse failure raises an "Unexpected
format" error carrying the original response; for 4xx the reason is replaced
by the body's `error` field when present; then `response.raise_for_status()`
(from the requests library) raises exactly for statuses in 400..599, with the
(possibly substituted) reason as the descriptive message. -/
def json_or_raise (r : Response) : Except HTTPError JsonObj :=
  match r.body with
  | none => .error ⟨"500 Server Error: Unexpected format", r.status⟩
  | some j =>
    let reason :=
      if 400 ≤ r.status ∧ r.status < 500 then (List.lookup "error" j).getD r.reason
      else r.reason
    if 400 ≤ r.status ∧ r.status < 600 then .error ⟨reason, r.status⟩
    else .ok j

/-- The `ProgressBufferReader` state: the underlying byte content with a read
cursor, the `_length` fixed at construction, and the `_progress` counter. -/
structure ProgressBufferReader where
  content : List Nat
  pos : Nat
  length : Nat
  progress : Nat
  deriving DecidableEq, Repr

/-- Construction from an in-memory `bytes` value: `_length = len(buf)`,
cursor at the start, `_progress = 0`. -/
def ProgressBufferReader.ofBytes (buf : List Nat) : ProgressBufferReader :=
  ⟨buf, 0, buf.length, 0⟩

/-- Construction from a file-like handle over a regular file:
`_length = os.fstat(buf.fileno()).st_size` is the full file length, while
reads are delegated to the handle, which serves bytes from its current
offset `pos` — not necessarily the start of the file, so `_length` can
exceed the bytes still readable.  `ofBytes buf` coincides with a handle at
offset 0. -/
def ProgressBufferReader.ofFile (content : List Nat) (pos : Nat) :
    ProgressBufferReader :=
  ⟨content, pos, content.length, 0⟩

/-- One `read(n)` call: take the next `n` bytes from the cursor (all remaining
bytes when `n` is negative), bump `_progress` by the chunk length, and report
`(size, progress)` to the callback.  Returns the chunk, the callback event and
the updated reader. -/
def ProgressBufferReader.read (st : ProgressBufferReader) (n : Int) :
    List Nat × (Nat × Nat) × ProgressBufferReader :=
  let avail := st.content.drop st.pos
  let chunk := if n < 0 then avail else avail.take n.toNat
  let progress := st.progress + chunk.length
  (chunk, (st.length, progress),
    { st with pos := st.pos + chunk.length, progress := progress })

/-- Method `tell()` returns the `_progress` counter. -/
def ProgressBufferReader.tell (st : ProgressBufferReader) : Nat := st.progress

/-- The trace of a sequence of `read` calls: the chunks returned, the callback
events emitted, and the final reader state. -/
structure ReadTrace where
  chunks : List (List Nat)
  events : List (Nat × Nat)
  final : ProgressBufferReader
  deriving DecidableEq, Repr

/-- Run a sequence of `read(n)` calls against a reader. -/
def runReads (st : ProgressBufferReader) : List Int → ReadTrace
  | [] => ⟨[], [], st⟩
  | n :: ns =>
    let (chunk, ev, st') := st.read n
    let t := runReads st' ns
    ⟨chunk :: t.chunks, ev :: t.events, t.final⟩

/-- A `FoxgloveException`, by the message it is raised with. -/
inductive FoxgloveError where
  | importError (err : String)
  | noKnownDecoder (encoding : String)
  | noDecoderProvided (encoding : String)
  deriving DecidableEq, Repr

/-- The exception message: the f-strings from client.py. -/
def FoxgloveError.message : FoxgloveError → String
  | .importError err => "Error importing decoder implementation: " ++ err
  | .noKnownDecoder enc => "No known decoder class for encoding " ++ enc
  | .noDecoderProvided enc => "no decoder provided for schema encoding " ++ enc

/-- Availability of the optional decoder packages.  A field is `none` when
the module loaded and `some err` when loading it failed, in which case the
module-level `try/except` replaced the class with `_err_on_construction(err)`. -/
structure DecoderPackages where
  ros1ImportError : Option String
  ros2ImportError : Option String
  protobufImportError : Option String
  deriving DecidableEq, Repr

/-- An mcap schema record (the fields the client reads). -/
structure Schema where
  name : String
  encoding : String
  deriving DecidableEq, Repr

/-- An mcap channel record (the fields the client reads). -/
structure Channel where
  topic : String
  deriving DecidableEq, Repr

/-- An mcap message record. -/
structure Message where
  data : List Nat
  deriving DecidableEq, Repr

/-- One record yielded by `reader.iter_messages()`. -/
structure McapRecord where
  schema : Schema
  channel : Channel
  message : Message
  deriving DecidableEq, Repr

/-- A decode function as stored in `Client._decoders`.  A `builtin` value is
the bound `decode` method of a decoder instance constructed by
`decoder_for_schema_encoding`; Python object identity is modelled by the
`(sessionId, instId)` tag.  A `custom` value is a caller-supplied callable. -/
inductive DecodeFn where
  | builtin (sessionId instId : Nat) (encoding : String)
  | custom (id : Nat)
  deriving DecidableEq, Repr

/-- The session a builtin decoder instance was constructed by. -/
def DecodeFn.sessionOf : DecodeFn → Option Nat
  | .builtin sessionId _ _ => some sessionId
  | .custom _ => none

/-- A decoded message value, kept as the free application of the decode
function to its `(schema, message)` arguments. -/
inductive Value where
  | decoded (fn : DecodeFn) (schema : Schema) (message : Message)
  deriving DecidableEq, Repr

/-- Applying a decode function to a record. -/
def DecodeFn.apply (fn : DecodeFn) (s : Schema) (m : Message) : Value :=
  .decoded fn s m

/-- Model of `decoder_for_schema_encoding` from client.py: dispatch on the encoding
string; the three optional decoder classes raise the deferred import error
when their package is missing; `JsonDecoder` always constructs; any other tag
raises "No known decoder class".  A successful construction yields the fresh
instance `(sessionId, instId)`. -/
def decoder_for_schema_encoding (pkgs : DecoderPackages) (sessionId instId : Nat)
    (encoding_string : String) : Except FoxgloveError DecodeFn :=
  if encoding_string = "ros1msg" then
    match pkgs.ros1ImportError with
    | none => .ok (.builtin sessionId instId encoding_string)
    | some err => .error (.importError err)
  else if encoding_string = "ros2msg" then
    match pkgs.ros2ImportError with
    | none => .ok (.builtin sessionId instId encoding_string)
    | some err => .error (.importError err)
  else if encoding_string = "protobuf" then
    match pkgs.protobufImportError with
    | none => .ok (.builtin sessionId instId encoding_string)
    | some err => .error (.importError err)
  else if encoding_string = "jsonschema" then
    .ok (.builtin sessionId instId encoding_string)
  else
    .error (.noKnownDecoder encoding_string)

/-- The decoder-relevant state of a `Client`: its `_decoders` registry, the
`_auto_load_decoders` flag, plus the session identity and the freshness
counter used to model Python object identity of constructed instances. -/
structure ClientState where
  sessionId : Nat
  decoders : List (String × DecodeFn)
  autoLoadDecoders : Bool
  nextInstId : Nat
  deriving DecidableEq, Repr

/-- Model of `Client.__init__`: `_decoders = {}` and `_auto_load_decoders = False`;
when the `decoders` argument is not `None` it becomes `_decoders`, otherwise
auto-loading is enabled. -/
def initClient (decoders : Option (List (String × DecodeFn))) (sessionId : Nat) :
    ClientState :=
  match decoders with
  | some m => ⟨sessionId, m, false, 0⟩
  | none => ⟨sessionId, [], true, 0⟩

/-- Processing one record inside the `get_messages` loop: when the encoding is
not in `_decoders`, auto-load mode constructs and stores a builtin decoder
(recording the construction event) and explicit-mapping mode raises
"no decoder provided"; otherwise the stored decode function is reused.  On
success the appended output triple is `(channel.topic, message, decoded)`. -/
def step (pkgs : DecoderPackages) (st : ClientState) (r : McapRecord) :
    Except FoxgloveError ((String × Message × Value) × List (String × DecodeFn) × ClientState) :=
  match List.lookup r.schema.encoding st.decoders with
  | some decoder =>
    .ok ((r.channel.topic, r.message, decoder.apply r.schema r.message), [], st)
  | none =>
    if st.autoLoadDecoders then
      match decoder_for_schema_encoding pkgs st.sessionId st.nextInstId r.schema.encoding with
      | .error e => .error e
      | .ok decoder =>
        .ok ((r.channel.topic, r.message, decoder.apply r.schema r.message),
          [(r.schema.encoding, decoder)],
          { st with decoders := (r.schema.encoding, decoder) :: st.decoders,
                    nextInstId := st.nextInstId + 1 })
    else
      .error (.noDecoderProvided r.schema.encoding)

/-- The trace of one `get_messages` call over the records the container reader
yields: the `output_messages` accumulated before any failure, the decoder
construction events, the client state after the loop (registry mutations
persist even when a later record raises), and the raised exception if any. -/
structure RunResult where
  outputs : List (String × Message × Value)
  constructions : List (String × DecodeFn)
  finalState : ClientState
  err : Option FoxgloveError
  deriving DecidableEq, Repr

/-- The `get_messages` decode loop over a list of records. -/
def runMessages (pkgs : DecoderPackages) (st : ClientState) :
    List McapRecord → RunResult
  | [] => ⟨[], [], st, none⟩
  | r :: rs =>
    match step pkgs st r with
    | .error e => ⟨[], [], st, some e⟩
    | .ok (out, cons, st') =>
      let res := runMessages pkgs st' rs
      ⟨out :: res.outputs, cons ++ res.constructions, res.finalState, res.err⟩

/-- The value `get_messages` delivers to its caller: the full output list on
success, the exception otherwise (the accumulated prefix is lost when it raises). -/
def get_messages (pkgs : DecoderPackages) (st : ClientState) (records : List McapRecord) :
    Except FoxgloveError (List (String × Message × Value)) :=
  let res := runMessages pkgs st records
  match res.err with
  | some e => .error e
  | none => .ok res.outputs

/-- An error surfaced by a transfer call: an `HTTPError` from
`json_or_raise`, or a `KeyError` from indexing a missing JSON field. -/
inductive ClientError where
  | http (e : HTTPError)
  | keyError (field : String)
  deriving DecidableEq, Repr

/-- The `download_data` streaming loop: write each chunk into the buffer and
report `data.tell()` (the bytes accumulated so far) to the callback.  Returns
the final buffer contents and the list of callback progress values. -/
def downloadLoop : List (List Nat) → List Nat → List Nat × List Nat
  | [], data => (data, [])
  | c :: cs, data =>
    let data' := data ++ c
    let res := downloadLoop cs data'
    (res.1, data'.length :: res.2)

/-- Model of `download_data`: unwrap the link response with `json_or_raise`, index its
`link` field, then stream the body of the second request chunk by chunk.  The
streamed body is an explicit input; the returned pair is (buffer bytes,
callback progress values). -/
def download_data (linkResponse : Response) (chunks : List (List Nat)) :
    Except ClientError (List Nat × List Nat) :=
  match json_or_raise linkResponse with
  | .error e => .error (.http e)
  | .ok j =>
    match List.lookup "link" j with
    | none => .error (.keyError "link")
    | some _ => .ok (downloadLoop chunks [])

/-- The cumulative buffer sizes reported by the `download_data` callback,
starting from a buffer already holding `start` bytes: the specification value
for the second component of `downloadLoop`. -/
def cumSizes (start : Nat) : List (List Nat) → List Nat
  | [] => []
  | c :: cs => (start + c.length) :: cumSizes (start + c.length) cs

/-- The response of the PUT against the pre-signed upload link. -/
structure PutResponse where
  text : String
  status_code : Nat
  deriving DecidableEq, Repr

/-- The record `upload_data` returns. -/
structure UploadResult where
  link : String
  text : String
  code : Nat
  deriving DecidableEq, Repr

/-- Model of `upload_data`: unwrap the link response with `json_or_raise`, index its
`link` field, issue the PUT, and return `{link, text, code}` from the PUT
response without inspecting its status. -/
def upload_data (linkResponse : Response) (putResponse : PutResponse) :
    Except ClientError UploadResult :=
  match json_or_raise linkResponse with
  | .error e => .error (.http e)
  | .ok j =>
    match List.lookup "link" j with
    | none => .error (.keyError "link")
    | some link => .ok ⟨link, putResponse.text, putResponse.status_code⟩

/-! ## Supporting lemmas -/

/-- A successful construction by `decoder_for_schema_encoding` always yields
the fresh builtin instance tagged with the given session and instance ids. -/
theorem decoder_for_schema_encoding_ok (pkgs : DecoderPackages) (sid iid : Nat)
    (enc : String) (d : DecodeFn)
    (h : decoder_for_schema_encoding pkgs sid iid enc = .ok d) :
    d = .builtin sid iid enc := by
  unfold decoder_for_schema_encoding at h
  split at h
  · cases hp : pkgs.ros1ImportError <;> rw [hp] at h <;> simp_all
  · split at h
    · cases hp : pkgs.ros2ImportError <;> rw [hp] at h <;> simp_all
    · split at h
      · cases hp : pkgs.protobufImportError <;> rw [hp] at h <;> simp_all
      · split at h
        · simp_all
        · simp_all

/-- The two failure shapes of the literal error messages never coincide. -/
theorem importError_message_ne_noKnownDecoder (a b : String) :
    FoxgloveError.message (.importError a) ≠ FoxgloveError.message (.noKnownDecoder b) := by
  intro h
  have h2 := congrArg String.data h
  rw [FoxgloveError.message, FoxgloveError.message, String.data_append,
    String.data_append] at h2
  have hE : List.head? (("Error importing decoder implementation: ").data ++ a.data)
      = some (Char.ofNat 69) := rfl
  have hN : List.head? (("No known decoder class for encoding ").data ++ b.data)
      = some (Char.ofNat 78) := rfl
  rw [h2, hN] at hE
  simp at hE

/-- The `_progress` counter after a sequence of reads grows by exactly the total length
of the returned chunks. -/
theorem runReads_progress (ns : List Int) (st : ProgressBufferReader) :
    (runReads st ns).final.progress =
      st.progress + ((runReads st ns).chunks.map List.length).sum := by
  induction ns generalizing st with
  | nil => simp [runReads]
  | cons n ns ih =>
    simp only [runReads, ProgressBufferReader.read, List.map_cons, List.sum_cons]
    rw [ih]
    simp
    try omega

/-- Running reads over an appended list of calls is running them in
sequence. -/
theorem runReads_append (l1 l2 : List Int) (st : ProgressBufferReader) :
    runReads st (l1 ++ l2) =
      ⟨(runReads st l1).chunks ++ (runReads (runReads st l1).final l2).chunks,
       (runReads st l1).events ++ (runReads (runReads st l1).final l2).events,
       (runReads (runReads st l1).final l2).final⟩ := by
  induction l1 generalizing st with
  | nil => simp [runReads]
  | cons n ns ih => simp [runReads, ih]

/-- The `_length` field fixed at construction never changes across reads. -/
theorem runReads_length (ns : List Int) (st : ProgressBufferReader) :
    (runReads st ns).final.length = st.length := by
  induction ns generalizing st with
  | nil => rfl
  | cons n ns ih => simp [runReads, ProgressBufferReader.read, ih]

/-- Mapping commutes with the last element: `getLast?` commutes with `map`. -/
theorem getLast?_map_eq {α β : Type} (f : α → β) (l : List α) :
    (l.map f).getLast? = l.getLast?.map f := by
  induction l with
  | nil => rfl
  | cons a l ih =>
    cases l with
    | nil => rfl
    | cons b t =>
      simp only [List.map_cons, List.getLast?_cons_cons] at ih ⊢
      exact ih

/-- One read is performed per call: the chunk trace has one entry per call. -/
theorem runReads_chunks_length (ns : List Int) (st : ProgressBufferReader) :
    (runReads st ns).chunks.length = ns.length := by
  induction ns generalizing st with
  | nil => rfl
  | cons n ns ih => simp [runReads, ih]

/-- The callback events of a read sequence: one per read, each carrying the
construction-time length and the running cumulative progress. -/
theorem runReads_events_eq (ns : List Int) (st : ProgressBufferReader) :
    (runReads st ns).events =
      (cumSizes st.progress (runReads st ns).chunks).map (fun p => (st.length, p)) := by
  induction ns generalizing st with
  | nil => rfl
  | cons n ns ih =>
    simp only [runReads, ProgressBufferReader.read, cumSizes, List.map_cons]
    rw [ih]

/-- Taking `getLast?` skips the head when the tail is nonempty. -/
theorem getLast?_cons_ne {α : Type} (a : α) (l : List α) (h : l ≠ []) :
    (a :: l).getLast? = l.getLast? := by
  cases l with
  | nil => exact absurd rfl h
  | cons b t => exact List.getLast?_cons_cons

/-- The last entry of `cumSizes` is the starting size plus the total length
of all chunks. -/
theorem cumSizes_getLast (cs : List (List Nat)) (s : Nat) (h : cs ≠ []) :
    (cumSizes s cs).getLast? = some (s + (cs.map List.length).sum) := by
  induction cs generalizing s with
  | nil => exact absurd rfl h
  | cons c cs ih =>
    cases cs with
    | nil => simp [cumSizes]
    | cons c2 cs2 =>
      rw [cumSizes, getLast?_cons_ne _ _ (by rw [cumSizes]; simp),
        ih (s + c.length) (by simp)]
      simp only [List.map_cons, List.sum_cons, Option.some.injEq]
      omega

/-- The list `cumSizes` yields one value per chunk. -/
theorem cumSizes_length (cs : List (List Nat)) (s : Nat) :
    (cumSizes s cs).length = cs.length := by
  induction cs generalizing s with
  | nil => rfl
  | cons c cs ih => simp [cumSizes, ih]

/-- When every chunk is nonempty, the cumulative sizes are strictly
increasing. -/
theorem cumSizes_chain (cs : List (List Nat)) (s : Nat) (h : ∀ c ∈ cs, c ≠ []) :
    List.Chain' (· < ·) (cumSizes s cs) := by
  induction cs generalizing s with
  | nil => simp [cumSizes]
  | cons c cs ih =>
    rw [cumSizes, List.chain'_cons']
    refine ⟨?_, ih (s + c.length) fun c2 hc2 => h c2 (List.mem_cons_of_mem _ hc2)⟩
    intro y hy
    cases cs with
    | nil => simp [cumSizes] at hy
    | cons c2 cs2 =>
      rw [cumSizes] at hy
      simp at hy
      have hc2 : c2 ≠ [] := h c2 (by simp)
      have : 0 < c2.length := List.length_pos.mpr hc2
      omega

/-- The `download_data` streaming loop appends the chunks in order and
reports the cumulative buffer sizes. -/
theorem downloadLoop_eq (cs : List (List Nat)) (data : List Nat) :
    downloadLoop cs data = (data ++ cs.flatten, cumSizes data.length cs) := by
  induction cs generalizing data with
  | nil => simp [downloadLoop, cumSizes]
  | cons c cs ih =>
    simp [downloadLoop, cumSizes, ih, List.append_assoc]

/-- A successful `step` either reused a stored decoder (registry untouched,
no construction) or constructed the fresh builtin decoder for an encoding
that was not yet registered, and stored it; the session id is preserved. -/
theorem step_ok_state (pkgs : DecoderPackages) (st : ClientState) (r : McapRecord)
    (out : String × Message × Value) (cons : List (String × DecodeFn)) (st' : ClientState)
    (h : step pkgs st r = .ok (out, cons, st')) :
    st'.sessionId = st.sessionId
      ∧ ((∃ d, List.lookup r.schema.encoding st.decoders = some d
            ∧ st'.decoders = st.decoders ∧ cons = [])
        ∨ (∃ d, cons = [(r.schema.encoding, d)]
            ∧ st'.decoders = (r.schema.encoding, d) :: st.decoders
            ∧ d = .builtin st.sessionId st.nextInstId r.schema.encoding
            ∧ List.lookup r.schema.encoding st.decoders = none)) := by
  unfold step at h
  split at h
  next decoder heq =>
    simp only [Except.ok.injEq, Prod.mk.injEq] at h
    obtain ⟨-, hcons, hst⟩ := h
    subst hst
    subst hcons
    exact ⟨rfl, Or.inl ⟨decoder, heq, rfl, rfl⟩⟩
  next heq =>
    split at h
    · split at h
      next e hd => simp at h
      next d2 hd =>
        simp only [Except.ok.injEq, Prod.mk.injEq] at h
        obtain ⟨-, hcons, hst⟩ := h
        subst hst
        subst hcons
        exact ⟨rfl, Or.inr ⟨d2, rfl, rfl,
          decoder_for_schema_encoding_ok pkgs st.sessionId st.nextInstId
            r.schema.encoding d2 hd, heq⟩⟩
    · simp at h

/-- The session identity is preserved across the `get_messages` loop. -/
theorem runMessages_sessionId (pkgs : DecoderPackages) (recs : List McapRecord)
    (st : ClientState) :
    (runMessages pkgs st recs).finalState.sessionId = st.sessionId := by
  induction recs generalizing st with
  | nil => rfl
  | cons r rs ih =>
    cases hs : step pkgs st r with
    | error e => simp [runMessages, hs]
    | ok res =>
      obtain ⟨out, cons, st'⟩ := res
      have h := step_ok_state pkgs st r out cons st' hs
      simp only [runMessages, hs]
      rw [ih st', h.1]

/-- Every decoder constructed during the loop is the builtin decoder for its
encoding, owned by the running session. -/
theorem runMessages_constructions_builtin (pkgs : DecoderPackages)
    (recs : List McapRecord) (st : ClientState) :
    ∀ p ∈ (runMessages pkgs st recs).constructions,
      ∃ i, p.2 = DecodeFn.builtin st.sessionId i p.1 := by
  induction recs generalizing st with
  | nil => simp [runMessages]
  | cons r rs ih =>
    cases hs : step pkgs st r with
    | error e => simp [runMessages, hs]
    | ok res =>
      obtain ⟨out, cons, st'⟩ := res
      have h := step_ok_state pkgs st r out cons st' hs
      intro p hp
      simp only [runMessages, hs, List.mem_append] at hp
      rcases hp with hp | hp
      · rcases h.2 with ⟨d, -, -, hc⟩ | ⟨d, hc, -, hb, -⟩
        · rw [hc] at hp; simp at hp
        · rw [hc] at hp
          simp only [List.mem_singleton] at hp
          subst hp
          exact ⟨st.nextInstId, hb⟩
      · obtain ⟨i, hi⟩ := ih st' p hp
        exact ⟨i, by rw [hi, h.1]⟩

/-- A registered decoder stays registered, with the same instance, for the
rest of the loop. -/
theorem runMessages_lookup_mono (pkgs : DecoderPackages) (recs : List McapRecord)
    (st : ClientState) (t : String) (d : DecodeFn)
    (h : List.lookup t st.decoders = some d) :
    List.lookup t (runMessages pkgs st recs).finalState.decoders = some d := by
  induction recs generalizing st with
  | nil => exact h
  | cons r rs ih =>
    cases hs : step pkgs st r with
    | error e => simpa [runMessages, hs] using h
    | ok res =>
      obtain ⟨out, cons, st'⟩ := res
      have hst := step_ok_state pkgs st r out cons st' hs
      simp only [runMessages, hs]
      apply ih st'
      rcases hst.2 with ⟨d2, -, hdec, -⟩ | ⟨d2, -, hdec, -, hnone⟩
      · rw [hdec]; exact h
      · rw [hdec]
        by_cases he : t = r.schema.encoding
        · subst he; rw [h] at hnone; cases hnone
        · have hbe : (t == r.schema.encoding) = false := beq_false_of_ne he
          simp [List.lookup, hbe, h]

/-- Every encoding constructed during the loop was absent from the registry
the loop started with. -/
theorem runMessages_constructions_fresh (pkgs : DecoderPackages)
    (recs : List McapRecord) (st : ClientState) :
    ∀ p ∈ (runMessages pkgs st recs).constructions,
      List.lookup p.1 st.decoders = none := by
  induction recs generalizing st with
  | nil => simp [runMessages]
  | cons r rs ih =>
    cases hs : step pkgs st r with
    | error e => simp [runMessages, hs]
    | ok res =>
      obtain ⟨out, cons, st'⟩ := res
      have hst := step_ok_state pkgs st r out cons st' hs
      intro p hp
      simp only [runMessages, hs, List.mem_append] at hp
      rcases hp with hp | hp
      · rcases hst.2 with ⟨d, -, -, hc⟩ | ⟨d, hc, -, -, hnone⟩
        · rw [hc] at hp; simp at hp
        · rw [hc] at hp
          simp only [List.mem_singleton] at hp
          subst hp
          exact hnone
      · have h2 := ih st' p hp
        rcases hst.2 with ⟨d, -, hdec, -⟩ | ⟨d, -, hdec, -, -⟩
        · rw [hdec] at h2; exact h2
        · rw [hdec] at h2
          by_cases he : p.1 = r.schema.encoding
          · have hbe : (p.1 == r.schema.encoding) = true := beq_iff_eq.mpr he
            simp [List.lookup, hbe] at h2
          · have hbe : (p.1 == r.schema.encoding) = false := beq_false_of_ne he
            simpa [List.lookup, hbe] using h2

/-- Every decoder constructed during the loop ends up stored in the final
registry under its encoding. -/
theorem runMessages_constructions_stored (pkgs : DecoderPackages)
    (recs : List McapRecord) (st : ClientState) :
    ∀ p ∈ (runMessages pkgs st recs).constructions,
      List.lookup p.1 (runMessages pkgs st recs).finalState.decoders = some p.2 := by
  induction recs generalizing st with
  | nil => simp [runMessages]
  | cons r rs ih =>
    cases hs : step pkgs st r with
    | error e => simp [runMessages, hs]
    | ok res =>
      obtain ⟨out, cons, st'⟩ := res
      have hst := step_ok_state pkgs st r out cons st' hs
      intro p hp
      simp only [runMessages, hs, List.mem_append] at hp ⊢
      rcases hp with hp | hp
      · rcases hst.2 with ⟨d, -, -, hc⟩ | ⟨d, hc, hdec, -, -⟩
        · rw [hc] at hp; simp at hp
        · rw [hc] at hp
          simp only [List.mem_singleton] at hp
          subst hp
          apply runMessages_lookup_mono
          rw [hdec]
          simp [List.lookup]
      · exact ih st' p hp

/-- At most one decoder is constructed per encoding tag in one loop. -/
theorem runMessages_constructions_nodup (pkgs : DecoderPackages)
    (recs : List McapRecord) (st : ClientState) :
    ((runMessages pkgs st recs).constructions.map Prod.fst).Nodup := by
  induction recs generalizing st with
  | nil => simp [runMessages]
  | cons r rs ih =>
    cases hs : step pkgs st r with
    | error e => simp [runMessages, hs]
    | ok res =>
      obtain ⟨out, cons, st'⟩ := res
      have hst := step_ok_state pkgs st r out cons st' hs
      simp only [runMessages, hs, List.map_append]
      rcases hst.2 with ⟨d, -, -, hc⟩ | ⟨d, hc, hdec, -, -⟩
      · rw [hc]; simpa using ih st'
      · rw [hc]
        simp only [List.map_cons, List.map_nil, List.singleton_append, List.nodup_cons]
        refine ⟨fun hmem => ?_, ih st'⟩
        obtain ⟨q, hq, hq1⟩ := List.mem_map.mp hmem
        have hfresh := runMessages_constructions_fresh pkgs rs st' q hq
        rw [hq1, hdec] at hfresh
        simp [List.lookup] at hfresh

/-- Every entry of the final registry was already present initially or was
constructed during the loop. -/
theorem runMessages_entries (pkgs : DecoderPackages) (recs : List McapRecord)
    (st : ClientState) :
    ∀ p ∈ (runMessages pkgs st recs).finalState.decoders,
      p ∈ st.decoders ∨ p ∈ (runMessages pkgs st recs).constructions := by
  induction recs generalizing st with
  | nil => exact fun p hp => Or.inl hp
  | cons r rs ih =>
    cases hs : step pkgs st r with
    | error e => exact fun p hp => Or.inl (by simpa [runMessages, hs] using hp)
    | ok res =>
      obtain ⟨out, cons, st'⟩ := res
      have hst := step_ok_state pkgs st r out cons st' hs
      intro p hp
      simp only [runMessages, hs, List.mem_append] at hp ⊢
      rcases ih st' p hp with h2 | h2
      · rcases hst.2 with ⟨d, -, hdec, -⟩ | ⟨d, hc, hdec, -, -⟩
        · rw [hdec] at h2; exact Or.inl h2
        · rw [hdec] at h2
          rcases List.mem_cons.mp h2 with h3 | h3
          · exact Or.inr (Or.inl (by rw [hc, h3]; simp))
          · exact Or.inl h3
      · exact Or.inr (Or.inr h2)

/-- When a loop finishes without error, every record's encoding is registered
afterwards. -/
theorem runMessages_covers (pkgs : DecoderPackages) (recs : List McapRecord)
    (st : ClientState) (h : (runMessages pkgs st recs).err = none) :
    ∀ r ∈ recs, ∃ d,
      List.lookup r.schema.encoding
        (runMessages pkgs st recs).finalState.decoders = some d := by
  induction recs generalizing st with
  | nil => simp
  | cons r0 rs ih =>
    cases hs : step pkgs st r0 with
    | error e => rw [runMessages, hs] at h; cases h
    | ok res =>
      obtain ⟨out, cons, st'⟩ := res
      have hst := step_ok_state pkgs st r0 out cons st' hs
      rw [runMessages, hs] at h
      intro r hr
      simp only [runMessages, hs]
      rcases List.mem_cons.mp hr with hr0 | hrs
      · subst hr0
        rcases hst.2 with ⟨d, hsome, hdec, -⟩ | ⟨d, -, hdec, -, -⟩
        · exact ⟨d, runMessages_lookup_mono pkgs rs st' _ d (by rw [hdec]; exact hsome)⟩
        · refine ⟨d, runMessages_lookup_mono pkgs rs st' _ d ?_⟩
          rw [hdec]
          simp [List.lookup]
      · exact ih st' h r hrs

/-- Every decoder instance in a registry reachable from a fresh auto-load
session is owned by that session. -/
theorem runMessages_owner (pkgs : DecoderPackages) (sid : Nat)
    (recs : List McapRecord) :
    ∀ p ∈ (runMessages pkgs (initClient none sid) recs).finalState.decoders,
      p.2.sessionOf = some sid := by
  intro p hp
  rcases runMessages_entries pkgs recs (initClient none sid) p hp with h | h
  · simp [initClient] at h
  · obtain ⟨i, hi⟩ := runMessages_constructions_builtin pkgs recs (initClient none sid) p h
    rw [hi]
    rfl

/-- Running the loop over concatenated record lists with a clean first half
is running the two halves in sequence from the carried-over state. -/
theorem runMessages_append (pkgs : DecoderPackages) (l1 l2 : List McapRecord)
    (st : ClientState) (h : (runMessages pkgs st l1).err = none) :
    runMessages pkgs st (l1 ++ l2) =
      ⟨(runMessages pkgs st l1).outputs ++
          (runMessages pkgs (runMessages pkgs st l1).finalState l2).outputs,
       (runMessages pkgs st l1).constructions ++
          (runMessages pkgs (runMessages pkgs st l1).finalState l2).constructions,
       (runMessages pkgs (runMessages pkgs st l1).finalState l2).finalState,
       (runMessages pkgs (runMessages pkgs st l1).finalState l2).err⟩ := by
  induction l1 generalizing st with
  | nil => simp [runMessages]
  | cons r rs ih =>
    cases hs : step pkgs st r with
    | error e => rw [runMessages, hs] at h; cases h
    | ok res =>
      obtain ⟨out, cons, st'⟩ := res
      simp only [runMessages, hs] at h
      simp only [List.cons_append, runMessages, hs, List.append_eq, ih st' h,
        List.append_assoc]

/-! ## Claim theorems -/

/-- C9: whenever the response body cannot be parsed as JSON, `json_or_raise`
fails with the synthetic "Unexpected format" error carrying the raw HTTP
status of the original response, whatever that status is (including 2xx),
before any status-based handling. -/
theorem json_or_raise_unexpected_format (r : Response) (h : r.body = none) :
    json_or_raise r = .error ⟨"500 Server Error: Unexpected format", r.status⟩ := by
  simp [json_or_raise, h]

/-- Witness for C9 at a 200-status response with an unparseable body. -/
theorem json_or_raise_unexpected_format_witness :
    json_or_raise ⟨200, "OK", none⟩ =
      .error ⟨"500 Server Error: Unexpected format", 200⟩ :=
  json_or_raise_unexpected_format ⟨200, "OK", none⟩ rfl

/-- C7: after a successful link request, `upload_data` returns the record
`{link, text, code}` taken verbatim from the link and the PUT response,
whatever the PUT status code is — it never fails on a non-2xx PUT status —
while `json_or_raise`, through which every other endpoint method funnels its
response, fails on every 4xx/5xx status. -/
theorem upload_data_returns_status_verbatim (linkResp : Response) (put : PutResponse)
    (j : JsonObj) (link : String)
    (hok : json_or_raise linkResp = .ok j)
    (hlink : List.lookup "link" j = some link) :
    upload_data linkResp put = .ok ⟨link, put.text, put.status_code⟩
      ∧ ∀ r : Response, 400 ≤ r.status → r.status < 600 →
          ∃ e, json_or_raise r = .error e := by
  constructor
  · simp [upload_data, hok, hlink]
  · intro r h4 h6
    cases hb : r.body with
    | none =>
      exact ⟨⟨"500 Server Error: Unexpected format", r.status⟩, by simp [json_or_raise, hb]⟩
    | some j2 =>
      by_cases h5 : r.status < 500
      · exact ⟨⟨(List.lookup "error" j2).getD r.reason, r.status⟩,
          by simp [json_or_raise, hb, h4, h5, h6]⟩
      · exact ⟨⟨r.reason, r.status⟩, by simp [json_or_raise, hb, h4, h5, h6]⟩

/-- Witness for C7: a 403 PUT response is returned, not raised. -/
theorem upload_data_returns_status_verbatim_witness :
    upload_data ⟨200, "OK", some [("link", "https://x/y")]⟩ ⟨"denied", 403⟩ =
      .ok ⟨"https://x/y", "denied", 403⟩ :=
  (upload_data_returns_status_verbatim ⟨200, "OK", some [("link", "https://x/y")]⟩
    ⟨"denied", 403⟩ [("link", "https://x/y")] "https://x/y" rfl rfl).1

/-- C2: with an explicit decoder mapping (auto-load disabled), a record whose
encoding is a key of the mapping is decoded with the mapped decoder and the
registry is left untouched (so repeated resolutions reuse the same entry),
while a record whose encoding is absent fails with the "no decoder provided
for schema encoding" error — independently of which decoder packages are
installed, so no auto-loading is attempted. -/
theorem explicit_mapping_resolution (pkgs : DecoderPackages) (st : ClientState)
    (r : McapRecord) (hauto : st.autoLoadDecoders = false) :
    (∀ d, List.lookup r.schema.encoding st.decoders = some d →
        step pkgs st r =
          .ok ((r.channel.topic, r.message, d.apply r.schema r.message), [], st))
      ∧ (List.lookup r.schema.encoding st.decoders = none →
          step pkgs st r = .error (.noDecoderProvided r.schema.encoding))
      ∧ (FoxgloveError.noDecoderProvided r.schema.encoding).message =
          "no decoder provided for schema encoding " ++ r.schema.encoding := by
  refine ⟨fun d hd => ?_, fun hn => ?_, rfl⟩
  · simp [step, hd]
  · simp [step, hn, hauto]

/-- Witness for C2: a mapping holding "jsonschema" but not "ros1msg" rejects
a ros1msg record and decodes a jsonschema record with the mapped entry. -/
theorem explicit_mapping_resolution_witness :
    step ⟨none, none, none⟩ ⟨0, [("jsonschema", .custom 7)], false, 0⟩
        ⟨⟨"s", "ros1msg"⟩, ⟨"t"⟩, ⟨[]⟩⟩ = .error (.noDecoderProvided "ros1msg")
      ∧ step ⟨none, none, none⟩
          ⟨0, [("jsonschema", .custom 7)], false, 0⟩ ⟨⟨"s", "jsonschema"⟩, ⟨"t"⟩, ⟨[]⟩⟩ =
        .ok (("t", ⟨[]⟩, (DecodeFn.custom 7).apply ⟨"s", "jsonschema"⟩ ⟨[]⟩), [],
          ⟨0, [("jsonschema", .custom 7)], false, 0⟩) :=
  ⟨(explicit_mapping_resolution _ _ _ rfl).2.1 (by decide),
   (explicit_mapping_resolution _ _ _ rfl).1 (.custom 7) (by decide)⟩

/-- C10: a client constructed with an empty decoder dictionary is in
explicit-mapping mode, not auto-load mode: every record makes `get_messages`
fail with the "no decoder provided for schema encoding" error for that
record's tag, even for "jsonschema", which auto-load mode (enabled exactly
when the argument is omitted, i.e. `None`) decodes successfully. -/
theorem empty_decoder_mapping_disables_auto_load (pkgs : DecoderPackages) (sid : Nat)
    (r : McapRecord) (rs : List McapRecord) :
    (initClient (some []) sid).autoLoadDecoders = false
      ∧ step pkgs (initClient (some []) sid) r =
          .error (.noDecoderProvided r.schema.encoding)
      ∧ get_messages pkgs (initClient (some []) sid) (r :: rs) =
          .error (.noDecoderProvided r.schema.encoding)
      ∧ (initClient none sid).autoLoadDecoders = true
      ∧ (r.schema.encoding = "jsonschema" →
          step pkgs (initClient none sid) r =
            .ok ((r.channel.topic, r.message,
                (DecodeFn.builtin sid 0 "jsonschema").apply r.schema r.message),
              [("jsonschema", .builtin sid 0 "jsonschema")],
              ⟨sid, [("jsonschema", .builtin sid 0 "jsonschema")], true, 1⟩)) := by
  refine ⟨rfl, ?_, ?_, rfl, fun hj => ?_⟩
  · simp [step, initClient]
  · simp [get_messages, runMessages, step, initClient]
  · simp [step, initClient, hj, decoder_for_schema_encoding]

/-- Witness for C10: a jsonschema record is rejected by the empty-mapping
client and decoded by the auto-load client. -/
theorem empty_decoder_mapping_disables_auto_load_witness :
    step ⟨none, none, none⟩ (initClient (some []) 0) ⟨⟨"s", "jsonschema"⟩, ⟨"t"⟩, ⟨[1]⟩⟩ =
        .error (.noDecoderProvided "jsonschema")
      ∧ step ⟨none, none, none⟩ (initClient none 0) ⟨⟨"s", "jsonschema"⟩, ⟨"t"⟩, ⟨[1]⟩⟩ =
        .ok (("t", ⟨[1]⟩, (DecodeFn.builtin 0 0 "jsonschema").apply ⟨"s", "jsonschema"⟩ ⟨[1]⟩),
          [("jsonschema", .builtin 0 0 "jsonschema")],
          ⟨0, [("jsonschema", .builtin 0 0 "jsonschema")], true, 1⟩) :=
  ⟨(empty_decoder_mapping_disables_auto_load ⟨none, none, none⟩ 0
      ⟨⟨"s", "jsonschema"⟩, ⟨"t"⟩, ⟨[1]⟩⟩ []).2.1,
   (empty_decoder_mapping_disables_auto_load ⟨none, none, none⟩ 0
      ⟨⟨"s", "jsonschema"⟩, ⟨"t"⟩, ⟨[1]⟩⟩ []).2.2.2.2 rfl⟩

/-- C6: with an explicit mapping covering the first two records' encodings
but not the third's, the `get_messages` loop decodes the first two records in
container order into `(topic, message, decoded)` triples and raises the "no
decoder provided" error exactly on reaching the third; the registry is left
unchanged. -/
theorem get_messages_stops_at_failing_record (pkgs : DecoderPackages) (sid : Nat)
    (m : List (String × DecodeFn)) (r1 r2 r3 : McapRecord) (d1 d2 : DecodeFn)
    (h1 : List.lookup r1.schema.encoding m = some d1)
    (h2 : List.lookup r2.schema.encoding m = some d2)
    (h3 : List.lookup r3.schema.encoding m = none) :
    runMessages pkgs (initClient (some m) sid) [r1, r2, r3] =
      ⟨[(r1.channel.topic, r1.message, d1.apply r1.schema r1.message),
        (r2.channel.topic, r2.message, d2.apply r2.schema r2.message)],
       [], initClient (some m) sid, some (.noDecoderProvided r3.schema.encoding)⟩ := by
  simp [runMessages, step, initClient, h1, h2, h3]

/-- Witness for C6 at a concrete three-record container. -/
theorem get_messages_stops_at_failing_record_witness :
    runMessages ⟨none, none, none⟩ (initClient (some [("jsonschema", .custom 7)]) 0)
        [⟨⟨"s1", "jsonschema"⟩, ⟨"t1"⟩, ⟨[1]⟩⟩,
         ⟨⟨"s2", "jsonschema"⟩, ⟨"t2"⟩, ⟨[2]⟩⟩,
         ⟨⟨"s3", "ros1msg"⟩, ⟨"t3"⟩, ⟨[3]⟩⟩] =
      ⟨[("t1", ⟨[1]⟩, (DecodeFn.custom 7).apply ⟨"s1", "jsonschema"⟩ ⟨[1]⟩),
        ("t2", ⟨[2]⟩, (DecodeFn.custom 7).apply ⟨"s2", "jsonschema"⟩ ⟨[2]⟩)],
       [], initClient (some [("jsonschema", .custom 7)]) 0,
       some (.noDecoderProvided "ros1msg")⟩ :=
  get_messages_stops_at_failing_record ⟨none, none, none⟩ 0 [("jsonschema", .custom 7)]
    ⟨⟨"s1", "jsonschema"⟩, ⟨"t1"⟩, ⟨[1]⟩⟩ ⟨⟨"s2", "jsonschema"⟩, ⟨"t2"⟩, ⟨[2]⟩⟩
    ⟨⟨"s3", "ros1msg"⟩, ⟨"t3"⟩, ⟨[3]⟩⟩ (.custom 7) (.custom 7) rfl rfl rfl

/-- C3: in auto-load mode, resolving one of the tags backed by an optional
package ("ros1msg", "ros2msg", "protobuf") while that package is missing
fails with the deferred import error; the import error occurs only for those
three tags, the "No known decoder class" error never occurs for them and is
exactly what every tag outside the known set gets; and the two error messages
can never coincide. -/
theorem missing_package_error_distinct_from_unknown_tag
    (pkgs : DecoderPackages) (sid iid : Nat) :
    (∀ e, pkgs.ros1ImportError = some e →
        decoder_for_schema_encoding pkgs sid iid "ros1msg" = .error (.importError e))
      ∧ (∀ e, pkgs.ros2ImportError = some e →
          decoder_for_schema_encoding pkgs sid iid "ros2msg" = .error (.importError e))
      ∧ (∀ e, pkgs.protobufImportError = some e →
          decoder_for_schema_encoding pkgs sid iid "protobuf" = .error (.importError e))
      ∧ (∀ enc e, decoder_for_schema_encoding pkgs sid iid enc = .error (.importError e) →
          enc = "ros1msg" ∨ enc = "ros2msg" ∨ enc = "protobuf")
      ∧ (∀ enc s, decoder_for_schema_encoding pkgs sid iid enc = .error (.noKnownDecoder s) →
          ¬(enc = "ros1msg" ∨ enc = "ros2msg" ∨ enc = "protobuf"))
      ∧ (∀ enc, enc ≠ "ros1msg" → enc ≠ "ros2msg" → enc ≠ "protobuf" → enc ≠ "jsonschema" →
          decoder_for_schema_encoding pkgs sid iid enc = .error (.noKnownDecoder enc))
      ∧ (∀ a b, FoxgloveError.message (.importError a) ≠
          FoxgloveError.message (.noKnownDecoder b)) := by
  refine ⟨fun e he => ?_, fun e he => ?_, fun e he => ?_, ?_, ?_, ?_, ?_⟩
  · simp [decoder_for_schema_encoding, he]
  · simp [decoder_for_schema_encoding, he]
  · simp [decoder_for_schema_encoding, he]
  · intro enc e h
    by_cases e1 : enc = "ros1msg"
    · exact Or.inl e1
    by_cases e2 : enc = "ros2msg"
    · exact Or.inr (Or.inl e2)
    by_cases e3 : enc = "protobuf"
    · exact Or.inr (Or.inr e3)
    exfalso
    by_cases e4 : enc = "jsonschema" <;>
      simp [decoder_for_schema_encoding, e1, e2, e3, e4] at h
  · intro enc s h hor
    rcases hor with e1 | e2 | e3
    · subst e1
      cases hp : pkgs.ros1ImportError <;>
        simp [decoder_for_schema_encoding, hp] at h
    · subst e2
      cases hp : pkgs.ros2ImportError <;>
        simp [decoder_for_schema_encoding, hp] at h
    · subst e3
      cases hp : pkgs.protobufImportError <;>
        simp [decoder_for_schema_encoding, hp] at h
  · intro enc e1 e2 e3 e4
    simp [decoder_for_schema_encoding, e1, e2, e3, e4]
  · exact importError_message_ne_noKnownDecoder

/-- Witness for C3: with mcap_ros1 missing, "ros1msg" gets the import error
while "mycustom" gets the unknown-tag error. -/
theorem missing_package_error_distinct_from_unknown_tag_witness :
    decoder_for_schema_encoding ⟨some "no module", none, none⟩ 0 0 "ros1msg" =
        .error (.importError "no module")
      ∧ decoder_for_schema_encoding ⟨some "no module", none, none⟩ 0 0 "mycustom" =
        .error (.noKnownDecoder "mycustom") :=
  ⟨(missing_package_error_distinct_from_unknown_tag ⟨some "no module", none, none⟩ 0 0).1
      "no module" rfl,
   (missing_package_error_distinct_from_unknown_tag
      ⟨some "no module", none, none⟩ 0 0).2.2.2.2.2.1
      "mycustom" (by decide) (by decide) (by decide) (by decide)⟩

/-- Counterexample to C8 as stated: an informational 1xx status is neither
2xx nor 3xx, yet `json_or_raise` returns the parsed body instead of raising —
the underlying status check raises only for 4xx/5xx. -/
theorem json_or_raise_informational_status_not_raised :
    json_or_raise ⟨100, "Continue", some []⟩ = .ok []
      ∧ ¬(200 ≤ 100 ∧ 100 < 400) := by
  constructor
  · rfl
  · decide

/-- C8 (amended): for a parseable body, a 4xx status raises an error whose
descriptive message is exactly the body's `error` field when present (the
reason phrase is replaced), a 5xx status raises with the unsubstituted reason
phrase, every 4xx/5xx status raises, and a 2xx/3xx status returns the parsed
body. -/
theorem json_or_raise_client_error_message_substitution (r : Response) (j : JsonObj)
    (hbody : r.body = some j) :
    (∀ msg, 400 ≤ r.status → r.status < 500 → List.lookup "error" j = some msg →
        json_or_raise r = .error ⟨msg, r.status⟩)
      ∧ (500 ≤ r.status → r.status < 600 → json_or_raise r = .error ⟨r.reason, r.status⟩)
      ∧ (400 ≤ r.status → r.status < 600 → ∃ e, json_or_raise r = .error e)
      ∧ (200 ≤ r.status → r.status < 400 → json_or_raise r = .ok j) := by
  refine ⟨fun msg h4 h5 hmsg => ?_, fun h5 h6 => ?_, fun h4 h6 => ?_, fun h2 h3 => ?_⟩
  · have h6 : r.status < 600 := by omega
    simp [json_or_raise, hbody, h4, h5, h6, hmsg]
  · have h4 : 400 ≤ r.status := by omega
    have hn : ¬r.status < 500 := by omega
    simp [json_or_raise, hbody, h4, hn, h6]
  · by_cases h5 : r.status < 500
    · exact ⟨⟨(List.lookup "error" j).getD r.reason, r.status⟩,
        by simp [json_or_raise, hbody, h4, h5, h6]⟩
    · exact ⟨⟨r.reason, r.status⟩, by simp [json_or_raise, hbody, h4, h5, h6]⟩
  · have h4 : ¬400 ≤ r.status := by omega
    simp [json_or_raise, hbody, h4]

/-- Witness for amended C8: a 404 with body error "device not found"
propagates exactly that message, not "Not Found". -/
theorem json_or_raise_client_error_message_substitution_witness :
    json_or_raise ⟨404, "Not Found", some [("error", "device not found")]⟩ =
      .error ⟨"device not found", 404⟩ :=
  (json_or_raise_client_error_message_substitution
      ⟨404, "Not Found", some [("error", "device not found")]⟩
      [("error", "device not found")] rfl).1
    "device not found" (by decide) (by decide) rfl

/-- Counterexample to C4 as stated: a file-like reader over the two-byte
file `[5, 7]` whose handle stands at offset 1.  The single `read(-1)` call
consumes the full content the source can ever yield (a further read returns
nothing), yet the final `tell()` is 1 while the construction-time length
from `fstat` is 2, and the last callback progress is 1, not 2. -/
theorem progress_reader_file_handle_counterexample :
    (runReads (ProgressBufferReader.ofFile [5, 7] 1) [-1]).chunks = [[7]]
      ∧ (runReads (ProgressBufferReader.ofFile [5, 7] 1) [-1, -1]).chunks = [[7], []]
      ∧ (ProgressBufferReader.ofFile [5, 7] 1).length = 2
      ∧ (runReads (ProgressBufferReader.ofFile [5, 7] 1) [-1]).final.tell = 1
      ∧ (runReads (ProgressBufferReader.ofFile [5, 7] 1) [-1]).events.getLast? =
          some (2, 1)
      ∧ (1 : Nat) ≠ 2 := by
  decide

/-- C4 (amended): for every reader of either construction (`ofBytes buf` is
the file-like model at offset 0), `tell()` after each prefix of a read
sequence equals the total length of the chunks returned so far and never
decreases, and after at least one read the last callback progress equals the
current `tell()`; when the reads have consumed the full content readable
from the source, the final `tell()` equals that readable byte count, which
equals the construction-time length exactly when the handle stands at the
start — in particular always for the in-memory construction. -/
theorem progress_reader_tell_sum_invariant (c : List Nat) (p : Nat) (ns : List Int) :
    ProgressBufferReader.ofBytes c = ProgressBufferReader.ofFile c 0
      ∧ (∀ k, (runReads (ProgressBufferReader.ofFile c p) (ns.take k)).final.tell =
          (((runReads (ProgressBufferReader.ofFile c p) (ns.take k)).chunks).map
            List.length).sum)
      ∧ (∀ k l, k ≤ l →
          (runReads (ProgressBufferReader.ofFile c p) (ns.take k)).final.tell ≤
            (runReads (ProgressBufferReader.ofFile c p) (ns.take l)).final.tell)
      ∧ (ns ≠ [] →
          (runReads (ProgressBufferReader.ofFile c p) ns).events.getLast? =
            some (c.length, (runReads (ProgressBufferReader.ofFile c p) ns).final.tell))
      ∧ ((((runReads (ProgressBufferReader.ofFile c p) ns).chunks.map List.length).sum
            = c.length - p) →
          (runReads (ProgressBufferReader.ofFile c p) ns).final.tell = c.length - p)
      ∧ (p = 0 →
          (((runReads (ProgressBufferReader.ofFile c p) ns).chunks.map List.length).sum
            = c.length) →
          (runReads (ProgressBufferReader.ofFile c p) ns).final.tell = c.length
            ∧ (ns ≠ [] →
                (runReads (ProgressBufferReader.ofFile c p) ns).events.getLast? =
                  some (c.length, c.length))) := by
  have htell : ∀ ms : List Int,
      (runReads (ProgressBufferReader.ofFile c p) ms).final.tell =
        (((runReads (ProgressBufferReader.ofFile c p) ms).chunks).map List.length).sum := by
    intro ms
    have := runReads_progress ms (ProgressBufferReader.ofFile c p)
    simpa [ProgressBufferReader.tell, ProgressBufferReader.ofFile] using this
  have hlast : ns ≠ [] →
      (runReads (ProgressBufferReader.ofFile c p) ns).events.getLast? =
        some (c.length, (runReads (ProgressBufferReader.ofFile c p) ns).final.tell) := by
    intro hne
    have hchunks : (runReads (ProgressBufferReader.ofFile c p) ns).chunks ≠ [] := by
      intro hempty
      have := runReads_chunks_length ns (ProgressBufferReader.ofFile c p)
      rw [hempty] at this
      exact hne (List.eq_nil_of_length_eq_zero this.symm)
    rw [runReads_events_eq, getLast?_map_eq, cumSizes_getLast _ _ hchunks]
    simp only [Option.map_some']
    rw [show (ProgressBufferReader.ofFile c p).progress = 0 from rfl,
      show (ProgressBufferReader.ofFile c p).length = c.length from rfl,
      Nat.zero_add, htell ns]
  refine ⟨rfl, fun k => htell (ns.take k), fun k l hkl => ?_, hlast,
    fun hsum => by rw [htell ns, hsum], fun hp hsum => ⟨by rw [htell ns, hsum], ?_⟩⟩
  · have hsplit : ns.take l = ns.take k ++ ((ns.take l).drop k) := by
      conv_lhs => rw [← List.take_append_drop k (ns.take l)]
      rw [List.take_take, Nat.min_eq_left hkl]
    rw [hsplit, runReads_append]
    simp only [ProgressBufferReader.tell]
    rw [runReads_progress ((ns.take l).drop k)]
    exact Nat.le_add_right _ _
  · intro hne
    rw [hlast hne, htell ns, hsum]

/-- Witness for amended C4: a file handle at offset 0 over `[1, 2, 3]` read
as `read(2)` then `read(-1)` ends with `tell()` 3 and last callback `(3, 3)`,
and a handle at offset 1 over `[5, 7]` that consumes its readable remainder
ends with `tell()` 1. -/
theorem progress_reader_tell_sum_invariant_witness :
    (runReads (ProgressBufferReader.ofFile [1, 2, 3] 0) ([2, -1].take 1)).final.tell =
        (((runReads (ProgressBufferReader.ofFile [1, 2, 3] 0) ([2, -1].take 1)).chunks).map
          List.length).sum
      ∧ (runReads (ProgressBufferReader.ofFile [1, 2, 3] 0) [2, -1]).events.getLast? =
          some (3, 3)
      ∧ (runReads (ProgressBufferReader.ofFile [5, 7] 1) [-1]).final.tell = 1 :=
  ⟨(progress_reader_tell_sum_invariant [1, 2, 3] 0 [2, -1]).2.1 1,
   ((progress_reader_tell_sum_invariant [1, 2, 3] 0 [2, -1]).2.2.2.2.2 rfl
      (by decide)).2 (by decide),
   (progress_reader_tell_sum_invariant [5, 7] 1 [-1]).2.2.2.2.1 (by decide)⟩

/-- C5: after a successful link request whose body holds a `link`,
`download_data` returns the in-order concatenation of all streamed chunks,
invoking the callback once per chunk with the cumulative byte count; for
nonempty chunks those values are strictly increasing and the last one equals
the length of the returned buffer. -/
theorem download_data_concatenates_chunks (linkResp : Response) (j : JsonObj)
    (link : String) (chunks : List (List Nat))
    (hok : json_or_raise linkResp = .ok j)
    (hlink : List.lookup "link" j = some link) :
    download_data linkResp chunks = .ok (chunks.flatten, cumSizes 0 chunks)
      ∧ (cumSizes 0 chunks).length = chunks.length
      ∧ ((∀ c ∈ chunks, c ≠ []) → List.Chain' (· < ·) (cumSizes 0 chunks))
      ∧ (chunks ≠ [] →
          (cumSizes 0 chunks).getLast? = some chunks.flatten.length) := by
  refine ⟨?_, cumSizes_length chunks 0, cumSizes_chain chunks 0, fun hne => ?_⟩
  · simp [download_data, hok, hlink, downloadLoop_eq]
  · rw [cumSizes_getLast chunks 0 hne, List.length_flatten]
    simp

/-- Witness for C5 at a two-chunk streamed body. -/
theorem download_data_concatenates_chunks_witness :
    download_data ⟨200, "OK", some [("link", "https://x/y")]⟩ [[1, 2], [3]] =
        .ok ([1, 2, 3], [2, 3])
      ∧ List.Chain' (· < ·) (cumSizes 0 [[1, 2], [3]])
      ∧ (cumSizes 0 [[1, 2], [3]]).getLast? = some ([[1, 2], [3]] : List (List Nat)).flatten.length :=
  ⟨(download_data_concatenates_chunks ⟨200, "OK", some [("link", "https://x/y")]⟩
      [("link", "https://x/y")] "https://x/y" [[1, 2], [3]] rfl rfl).1,
   (download_data_concatenates_chunks ⟨200, "OK", some [("link", "https://x/y")]⟩
      [("link", "https://x/y")] "https://x/y" [[1, 2], [3]] rfl rfl).2.2.1 (by decide),
   (download_data_concatenates_chunks ⟨200, "OK", some [("link", "https://x/y")]⟩
      [("link", "https://x/y")] "https://x/y" [[1, 2], [3]] rfl rfl).2.2.2 (by decide)⟩

/-- C1: in auto-load mode, at most one decoder is constructed per encoding
tag per session: each construction event is the builtin decoder for its tag,
owned by the session; the constructed decode function is stored in the
registry; a record whose tag is already registered is served from the
registry with no construction and no state change; constructions stay
tag-distinct across a later `get_messages` call on the same session (whose
loop continues from the carried-over registry, per `runMessages_append`); on
a clean run every encountered tag ends up registered; and registries of two
sessions with distinct identities never share a decoder instance. -/
theorem auto_load_decoder_cache (pkgs : DecoderPackages) (sid sid2 : Nat)
    (recs recs2 : List McapRecord) :
    ((runMessages pkgs (initClient none sid) recs).constructions.map Prod.fst).Nodup
      ∧ (∀ p ∈ (runMessages pkgs (initClient none sid) recs).constructions,
          ∃ i, p.2 = DecodeFn.builtin sid i p.1)
      ∧ (∀ p ∈ (runMessages pkgs (initClient none sid) recs).constructions,
          List.lookup p.1
            (runMessages pkgs (initClient none sid) recs).finalState.decoders = some p.2)
      ∧ (∀ (st : ClientState) (r : McapRecord) (d : DecodeFn),
          List.lookup r.schema.encoding st.decoders = some d →
          step pkgs st r =
            .ok ((r.channel.topic, r.message, d.apply r.schema r.message), [], st))
      ∧ (∀ l2, (((runMessages pkgs (initClient none sid) recs).constructions ++
            (runMessages pkgs
              (runMessages pkgs (initClient none sid) recs).finalState
              l2).constructions).map Prod.fst).Nodup)
      ∧ ((runMessages pkgs (initClient none sid) recs).err = none →
          ∀ r ∈ recs, ∃ d, List.lookup r.schema.encoding
            (runMessages pkgs (initClient none sid) recs).finalState.decoders = some d)
      ∧ (∀ p ∈ (runMessages pkgs (initClient none sid) recs).finalState.decoders,
          p.2.sessionOf = some sid)
      ∧ (sid ≠ sid2 → ∀ e1 e2 (d : DecodeFn),
          (e1, d) ∈ (runMessages pkgs (initClient none sid) recs).finalState.decoders →
          (e2, d) ∈ (runMessages pkgs (initClient none sid2) recs2).finalState.decoders →
          False) := by
  have hsid : (initClient none sid).sessionId = sid := rfl
  refine ⟨runMessages_constructions_nodup pkgs recs (initClient none sid),
    fun p hp => ?_,
    runMessages_constructions_stored pkgs recs (initClient none sid),
    fun st r d hd => by simp [step, hd],
    fun l2 => ?_, runMessages_covers pkgs recs (initClient none sid),
    runMessages_owner pkgs sid recs, fun hne e1 e2 d h1 h2 => ?_⟩
  · obtain ⟨i, hi⟩ :=
      runMessages_constructions_builtin pkgs recs (initClient none sid) p hp
    exact ⟨i, by rw [hi, hsid]⟩
  · rw [List.map_append]
    apply List.Nodup.append
    · exact runMessages_constructions_nodup pkgs recs (initClient none sid)
    · exact runMessages_constructions_nodup pkgs l2 _
    · rw [List.disjoint_left]
      intro t ht1 ht2
      obtain ⟨p, hp, hpt⟩ := List.mem_map.mp ht1
      obtain ⟨q, hq, hqt⟩ := List.mem_map.mp ht2
      have hstored :=
        runMessages_constructions_stored pkgs recs (initClient none sid) p hp
      have hfresh := runMessages_constructions_fresh pkgs l2
        (runMessages pkgs (initClient none sid) recs).finalState q hq
      rw [hqt, ← hpt, hstored] at hfresh
      cases hfresh
  · have o1 := runMessages_owner pkgs sid recs (e1, d) h1
    have o2 := runMessages_owner pkgs sid2 recs2 (e2, d) h2
    rw [o1] at o2
    exact hne (Option.some.inj o2)

/-- Witness for C1: after decoding one jsonschema record in a fresh
auto-load session, the jsonschema decoder is registered. -/
theorem auto_load_decoder_cache_witness :
    ∃ d, List.lookup "jsonschema"
      (runMessages ⟨none, none, none⟩ (initClient none 0)
        [⟨⟨"s", "jsonschema"⟩, ⟨"t"⟩, ⟨[1]⟩⟩]).finalState.decoders = some d :=
  (auto_load_decoder_cache ⟨none, none, none⟩ 0 1
      [⟨⟨"s", "jsonschema"⟩, ⟨"t"⟩, ⟨[1]⟩⟩] []).2.2.2.2.2.1
    (by decide) ⟨⟨"s", "jsonschema"⟩, ⟨"t"⟩, ⟨[1]⟩⟩ (by decide)

end Foxglove
